import Mathlib

/-!
Shallow embedding of the cache-consistency and purge-propagation subsystem
of `src/server/cache.js`.

JavaScript objects used as string-keyed maps (`cache`, `byId`, `noCache`)
are embedded as association lists `List (String × _)`; the `noCache` map,
whose values are opaque timer handles, is embedded as the list of its keys
(presence of a key = an active suppression timer for that path).  JS `Set`
is embedded as a duplicate-free `List String` kept in insertion order.
Falsy string values (`''`, absent) are represented by the empty string for
the `modified` argument of `add` and for cached payloads; the JS truthiness
test `cache[url]` is `truthy (lookupKey cache url)` below.  Network effects
(peer purge fan-out, the orchestration API call) are embedded by passing the
responses in as explicit oracles and returning the list of outbound peer
requests alongside the new state.
-/

set_option autoImplicit false

namespace LibraryCache

/-- Lookup in an association list, first binding wins (JS property read). -/
def lookupKey {α : Type} (m : List (String × α)) (k : String) : Option α :=
  match m with
  | [] => none
  | (k1, v1) :: rest => if k1 = k then some v1 else lookupKey rest k

/-- Write a key in an association list (JS property assignment `m[k] = v`). -/
def setKey {α : Type} (m : List (String × α)) (k : String) (v : α) :
    List (String × α) :=
  match m with
  | [] => [(k, v)]
  | (k1, v1) :: rest =>
    if k1 = k then (k, v) :: rest else (k1, v1) :: setKey rest k v

/-- Remove a key from an association list (JS `delete m[k]`). -/
def eraseKey {α : Type} (m : List (String × α)) (k : String) :
    List (String × α) :=
  match m with
  | [] => []
  | (k1, v1) :: rest =>
    if k1 = k then eraseKey rest k else (k1, v1) :: eraseKey rest k

/-- JS truthiness of a string-valued property read: present and non-empty. -/
def truthy (o : Option String) : Bool :=
  match o with
  | none => false
  | some v => v ≠ ""

/-- JS `Set.add`: append the element if it is not already a member. -/
def addToSet (l : List String) (x : String) : List String :=
  if l.contains x then l else l ++ [x]

/-- An entry of `byId`: last modified marker plus the set of rendered paths
(`{paths: new Set(), modified}` in the source). -/
structure ContentRecord where
  modified : String
  paths : List String
  deriving DecidableEq, Repr

/-- The module-level mutable state of `cache.js`: `cache`, `byId`, `noCache`
and `instances`. -/
structure ServerState where
  cache : List (String × String)
  byId : List (String × ContentRecord)
  noCache : List String
  instances : List String
  deriving DecidableEq, Repr

/-- Outcome of one outbound HTTP GET as seen by its callback: a transport
error or a response with a status code. -/
inductive PeerResult where
  | transportError (msg : String)
  | status (code : Nat)
  deriving DecidableEq, Repr

/-- An outbound peer purge request `GET http://<addr>:3000<path>?purge=1[&edit=1]`
issued during fan-out. -/
structure OutRequest where
  addr : String
  path : String
  edit : Bool
  deriving DecidableEq, Repr

/-- The callback body of the `async.each` iteratee in `purgeCache`: a transport
error is passed through, a non-200 status becomes an error, 200 succeeds. -/
def peerCall (net : String → PeerResult) (inst : String) (path : String) :
    Except String Unit :=
  match net inst with
  | PeerResult.transportError e => Except.error e
  | PeerResult.status code =>
    if code = 200 then Except.ok ()
    else Except.error
      ("Tried to purge http://" ++ inst ++ ":3000" ++ path ++
        " but received " ++ toString code ++ "; expected 200.")

/-- Aggregation performed by `async.each`: the final callback receives the
first error produced by any iteratee, or `null` when all succeed. -/
def firstError (l : List (Except String Unit)) : Except String Unit :=
  match l with
  | [] => Except.ok ()
  | Except.ok _ :: rest => firstError rest
  | Except.error e :: _ => Except.error e

/-- Arming the `noCache` suppression timer for a path: any prior timer for the
path is cancelled and replaced, so at the level of key presence the path is
simply made a member. -/
def armNoCache (l : List String) (path : String) : List String :=
  if l.contains path then l else l ++ [path]

/-- The function `purgeCache(path, preventCache, recurse, cb)`.  With `recurse`
truthy it returns after fanning out one request per instance (`async.each`),
without touching local state; otherwise it optionally arms `noCache` and then
deletes the local cache entry.  Returns the new state, the outbound peer
requests, and the value delivered to `cb`. -/
def purgeCache (s : ServerState) (path : String)
    (preventCache recurse : Bool) (net : String → PeerResult) :
    ServerState × List OutRequest × Except String Unit :=
  if recurse then
    (s, s.instances.map (fun inst => ⟨inst, path, preventCache⟩),
      firstError (s.instances.map (fun inst => peerCall net inst path)))
  else
    let s1 := if preventCache then { s with noCache := armNoCache s.noCache path } else s
    ({ s1 with cache := eraseKey s1.cache path }, [], Except.ok ())

/-- The function `exports.add(id, modified, path, html)`. -/
def add (s : ServerState) (id modified path html : String) : ServerState :=
  if modified = "" then s
  else if s.noCache.contains path then s
  else
    let data := (lookupKey s.byId id).getD ⟨modified, []⟩
    let data1 := { data with paths := addToSet data.paths path }
    { s with cache := setKey s.cache path html, byId := setKey s.byId id data1 }

/-- JS `"a/b".split('/')` on the list of characters. -/
def splitSlash (cs : List Char) : List (List Char) :=
  match cs with
  | [] => [[]]
  | c :: rest =>
    let r := splitSlash rest
    if c = '/' then [] :: r
    else
      match r with
      | [] => [[c]]
      | sfirst :: srest => (c :: sfirst) :: srest

/-- JS `path.split('/')`. -/
def splitOnSlash (path : String) : List String :=
  (splitSlash path.data).map (fun cs => String.mk cs)

/-- JS `segs.join('/')`. -/
def joinSlash (l : List String) : String :=
  match l with
  | [] => ""
  | [x] => x
  | x :: xs => x ++ "/" ++ joinSlash xs

/-- The segment map in `exports.purge`:
`path.split('/').map((segment, i, segments) => segments.slice(0, i).concat([segment]).join('/'))`,
the list of cumulative prefixes of the path. -/
def segments (path : String) : List String :=
  let segs := splitOnSlash path
  (List.range segs.length).map (fun i => joinSlash (segs.take (i + 1)))

/-- One iteration of the inner loop of `exports.purge`: skip the url if
`cache[url]` is falsy, otherwise call `purgeCache(url)` (no flags, no
callback) and collect its outbound requests. -/
def purgeSegStep (acc : ServerState × List OutRequest) (url : String) :
    ServerState × List OutRequest :=
  if truthy (lookupKey acc.1.cache url) then
    let r := purgeCache acc.1 url false false (fun _ => PeerResult.status 200)
    (r.1, acc.2 ++ r.2.1)
  else acc

/-- Processing of one path in `exports.purge`: purge every cumulative
prefix of the path that currently has a truthy cache entry. -/
def purgePathSegs (acc : ServerState × List OutRequest) (path : String) :
    ServerState × List OutRequest :=
  (segments path).foldl purgeSegStep acc

/-- The function `exports.purge(id, newModified)` (purge-by-id): no-op when
no record exists or when the stored modified marker equals `newModified`;
otherwise purge the cumulative prefixes of every path of the record. -/
def purgeById (s : ServerState) (id newModified : String) :
    ServerState × List OutRequest :=
  match lookupKey s.byId id with
  | none => (s, [])
  | some data =>
    if data.modified = newModified then (s, [])
    else data.paths.foldl purgePathSegs (s, [])

/-- Outcome of the orchestration API call as seen by the `updateInstances`
callback: transport error, or a status code together with the pod IPs parsed
from `body.items`. -/
inductive KubeResult where
  | transportError (msg : String)
  | response (code : Nat) (podIPs : List String)
  deriving DecidableEq, Repr

/-- The function `updateInstances(token, cb)`: on transport error or non-200
status the instance list is left untouched and an error is delivered; on a 200
response the instance list is replaced wholesale by the returned pod IPs. -/
def updateInstances (s : ServerState) (resp : KubeResult) :
    ServerState × Except String (List String) :=
  match resp with
  | KubeResult.transportError e => (s, Except.error e)
  | KubeResult.response code ips =>
    if code ≠ 200 then
      (s, Except.error
        ("Got status " ++ toString code ++ "; expected 200 while updating instance list."))
    else ({ s with instances := ips }, Except.ok ips)

/-- An inbound request as seen by the middleware: the path and the truthiness
of the `purge`, `edit` and `recurse` query parameters. -/
structure Req where
  path : String
  purge : Bool
  edit : Bool
  recurse : Bool
  deriving DecidableEq, Repr

/-- What the middleware does with a request: answer a purge request with a
status and body, serve a cached payload, or fall through to `next()`. -/
inductive MwResult where
  | purgeResponse (status : Nat) (body : String)
  | cacheHit (html : String)
  | next
  deriving DecidableEq, Repr

/-- The function `exports.middleware(req, res, next)`.  `kubeToken` is the
module-level token (present iff the token file was readable at startup) and
`kubeResp` the oracle for the `updateInstances` call issued when a purge
fails. -/
def middleware (s : ServerState) (req : Req) (net : String → PeerResult)
    (kubeToken : Option String) (kubeResp : KubeResult) :
    ServerState × List OutRequest × MwResult :=
  if req.purge || req.edit then
    match (purgeCache s req.path req.edit req.recurse net).2.2 with
    | Except.error e =>
      ((if kubeToken.isSome then
          (updateInstances (purgeCache s req.path req.edit req.recurse net).1 kubeResp).1
        else (purgeCache s req.path req.edit req.recurse net).1),
       (purgeCache s req.path req.edit req.recurse net).2.1,
       MwResult.purgeResponse 500 e)
    | Except.ok _ =>
      ((purgeCache s req.path req.edit req.recurse net).1,
       (purgeCache s req.path req.edit req.recurse net).2.1,
       MwResult.purgeResponse 200 "OK")
  else
    match lookupKey s.cache req.path with
    | some html =>
      if html ≠ "" then (s, [], MwResult.cacheHit html)
      else (s, [], MwResult.next)
    | none => (s, [], MwResult.next)

/-! Helper lemmas about the association-list operations. -/

theorem lookupKey_eraseKey {α : Type} (m : List (String × α)) (k u : String) :
    lookupKey (eraseKey m k) u = if u = k then none else lookupKey m u := by
  induction m with
  | nil => simp [eraseKey, lookupKey]
  | cons hd tl ih =>
    obtain ⟨k1, v1⟩ := hd
    by_cases h1 : k1 = k <;> by_cases h2 : k1 = u <;>
      simp_all [eraseKey, lookupKey]

theorem lookupKey_setKey_self {α : Type} (m : List (String × α)) (k : String) (v : α) :
    lookupKey (setKey m k v) k = some v := by
  induction m with
  | nil => simp [setKey, lookupKey]
  | cons hd tl ih =>
    obtain ⟨k1, v1⟩ := hd
    by_cases h1 : k1 = k <;> simp_all [setKey, lookupKey]

theorem mem_addToSet (l : List String) (x : String) : x ∈ addToSet l x := by
  unfold addToSet
  split
  · next h => exact List.mem_of_elem_eq_true h
  · simp

theorem contains_armNoCache (l : List String) (p : String) :
    (armNoCache l p).contains p = true := by
  unfold armNoCache
  split
  · next h => exact h
  · exact List.elem_eq_true_of_mem (by simp)

/-! Helper lemmas about one step of the ancestor-purge loop. -/

theorem purgeCache_local (s : ServerState) (path : String) (net : String → PeerResult) :
    purgeCache s path false false net =
      ({ s with cache := eraseKey s.cache path }, [], Except.ok ()) := rfl

theorem purgeSegStep_eq (acc : ServerState × List OutRequest) (url : String) :
    purgeSegStep acc url =
      if truthy (lookupKey acc.1.cache url) then
        ({ acc.1 with cache := eraseKey acc.1.cache url }, acc.2)
      else acc := by
  simp only [purgeSegStep, purgeCache_local]
  split <;> simp

theorem purgeSegStep_proj (acc : ServerState × List OutRequest) (url : String) :
    (purgeSegStep acc url).1.byId = acc.1.byId ∧
    (purgeSegStep acc url).1.noCache = acc.1.noCache ∧
    (purgeSegStep acc url).1.instances = acc.1.instances ∧
    (purgeSegStep acc url).2 = acc.2 := by
  rw [purgeSegStep_eq]
  split <;> simp

theorem purgeSegStep_lookup (acc : ServerState × List OutRequest) (url u : String) :
    lookupKey (purgeSegStep acc url).1.cache u = lookupKey acc.1.cache u ∨
    lookupKey (purgeSegStep acc url).1.cache u = none := by
  rw [purgeSegStep_eq]
  split
  · show lookupKey (eraseKey acc.1.cache url) u = _ ∨ lookupKey (eraseKey acc.1.cache url) u = none
    rw [lookupKey_eraseKey]
    by_cases h : u = url <;> simp [h]
  · left; rfl

theorem purgeSegStep_truthy_self (acc : ServerState × List OutRequest) (url : String) :
    truthy (lookupKey (purgeSegStep acc url).1.cache url) = false := by
  rw [purgeSegStep_eq]
  split
  · show truthy (lookupKey (eraseKey acc.1.cache url) url) = false
    simp [lookupKey_eraseKey, truthy]
  · next h => simpa using h

theorem purgeSegStep_truthy_mono (acc : ServerState × List OutRequest) (url u : String)
    (h : truthy (lookupKey acc.1.cache u) = false) :
    truthy (lookupKey (purgeSegStep acc url).1.cache u) = false := by
  rcases purgeSegStep_lookup acc url u with h1 | h1 <;> rw [h1]
  · exact h
  · rfl

theorem purgeSegStep_of_falsy (acc : ServerState × List OutRequest) (url : String)
    (h : truthy (lookupKey acc.1.cache url) = false) :
    purgeSegStep acc url = acc := by
  rw [purgeSegStep_eq, if_neg]
  simp [h]

/-! Helper lemmas about the fold over the segments of one path. -/

theorem foldSegs_proj (l : List String) (acc : ServerState × List OutRequest) :
    (l.foldl purgeSegStep acc).1.byId = acc.1.byId ∧
    (l.foldl purgeSegStep acc).1.noCache = acc.1.noCache ∧
    (l.foldl purgeSegStep acc).1.instances = acc.1.instances ∧
    (l.foldl purgeSegStep acc).2 = acc.2 := by
  induction l generalizing acc with
  | nil => simp
  | cons hd tl ih =>
    rw [List.foldl_cons]
    have h1 := purgeSegStep_proj acc hd
    have h2 := ih (purgeSegStep acc hd)
    exact ⟨h2.1.trans h1.1, h2.2.1.trans h1.2.1,
      h2.2.2.1.trans h1.2.2.1, h2.2.2.2.trans h1.2.2.2⟩

theorem foldSegs_truthy_mono (l : List String) (acc : ServerState × List OutRequest)
    (u : String) (h : truthy (lookupKey acc.1.cache u) = false) :
    truthy (lookupKey (l.foldl purgeSegStep acc).1.cache u) = false := by
  induction l generalizing acc with
  | nil => exact h
  | cons hd tl ih => exact ih (purgeSegStep acc hd) (purgeSegStep_truthy_mono acc hd u h)

theorem foldSegs_truthy_self (l : List String) (acc : ServerState × List OutRequest)
    (u : String) (hu : u ∈ l) :
    truthy (lookupKey (l.foldl purgeSegStep acc).1.cache u) = false := by
  induction l generalizing acc with
  | nil => cases hu
  | cons hd tl ih =>
    rcases List.mem_cons.mp hu with rfl | h
    · exact foldSegs_truthy_mono tl (purgeSegStep acc u) u (purgeSegStep_truthy_self acc u)
    · exact ih (purgeSegStep acc hd) h

theorem foldSegs_of_falsy (l : List String) (acc : ServerState × List OutRequest)
    (h : ∀ u ∈ l, truthy (lookupKey acc.1.cache u) = false) :
    l.foldl purgeSegStep acc = acc := by
  induction l generalizing acc with
  | nil => rfl
  | cons hd tl ih =>
    rw [List.foldl_cons, purgeSegStep_of_falsy acc hd (h hd (by simp))]
    exact ih acc (fun u hu => h u (by simp [hu]))

theorem foldSegs_lookup (l : List String) (acc : ServerState × List OutRequest)
    (u : String) :
    lookupKey (l.foldl purgeSegStep acc).1.cache u = lookupKey acc.1.cache u ∨
    lookupKey (l.foldl purgeSegStep acc).1.cache u = none := by
  induction l generalizing acc with
  | nil => left; rfl
  | cons hd tl ih =>
    rw [List.foldl_cons]
    rcases ih (purgeSegStep acc hd) with h | h
    · rcases purgeSegStep_lookup acc hd u with h2 | h2
      · left; rw [h, h2]
      · right; rw [h, h2]
    · right; exact h

/-! Helper lemmas about the fold over all paths of a content record. -/

theorem foldPaths_proj (ps : List String) (acc : ServerState × List OutRequest) :
    (ps.foldl purgePathSegs acc).1.byId = acc.1.byId ∧
    (ps.foldl purgePathSegs acc).1.noCache = acc.1.noCache ∧
    (ps.foldl purgePathSegs acc).1.instances = acc.1.instances ∧
    (ps.foldl purgePathSegs acc).2 = acc.2 := by
  induction ps generalizing acc with
  | nil => simp
  | cons hd tl ih =>
    rw [List.foldl_cons]
    have h1 := foldSegs_proj (segments hd) acc
    have h2 := ih (purgePathSegs acc hd)
    exact ⟨h2.1.trans h1.1, h2.2.1.trans h1.2.1,
      h2.2.2.1.trans h1.2.2.1, h2.2.2.2.trans h1.2.2.2⟩

theorem foldPaths_truthy_mono (ps : List String) (acc : ServerState × List OutRequest)
    (u : String) (h : truthy (lookupKey acc.1.cache u) = false) :
    truthy (lookupKey (ps.foldl purgePathSegs acc).1.cache u) = false := by
  induction ps generalizing acc with
  | nil => exact h
  | cons hd tl ih =>
    exact ih (purgePathSegs acc hd) (foldSegs_truthy_mono (segments hd) acc u h)

theorem foldPaths_truthy_self (ps : List String) (acc : ServerState × List OutRequest)
    (p u : String) (hp : p ∈ ps) (hu : u ∈ segments p) :
    truthy (lookupKey (ps.foldl purgePathSegs acc).1.cache u) = false := by
  induction ps generalizing acc with
  | nil => cases hp
  | cons hd tl ih =>
    rcases List.mem_cons.mp hp with rfl | h
    · exact foldPaths_truthy_mono tl (purgePathSegs acc p) u
        (foldSegs_truthy_self (segments p) acc u hu)
    · exact ih (purgePathSegs acc hd) h

theorem foldPaths_of_falsy (ps : List String) (acc : ServerState × List OutRequest)
    (h : ∀ p ∈ ps, ∀ u ∈ segments p, truthy (lookupKey acc.1.cache u) = false) :
    ps.foldl purgePathSegs acc = acc := by
  induction ps generalizing acc with
  | nil => rfl
  | cons hd tl ih =>
    have e1 : purgePathSegs acc hd = acc :=
      foldSegs_of_falsy (segments hd) acc (h hd (by simp))
    rw [List.foldl_cons, e1]
    exact ih acc (fun p hp => h p (by simp [hp]))

theorem foldPaths_lookup (ps : List String) (acc : ServerState × List OutRequest)
    (u : String) :
    lookupKey (ps.foldl purgePathSegs acc).1.cache u = lookupKey acc.1.cache u ∨
    lookupKey (ps.foldl purgePathSegs acc).1.cache u = none := by
  induction ps generalizing acc with
  | nil => left; rfl
  | cons hd tl ih =>
    rw [List.foldl_cons]
    rcases ih (purgePathSegs acc hd) with h | h
    · rcases foldSegs_lookup (segments hd) acc u with h2 | h2
      · left; rw [h]; exact h2
      · right; rw [h]; exact h2
    · right; exact h

/-! Helper lemmas about purge-by-id as a whole. -/

theorem purgeById_proj (s : ServerState) (id m : String) :
    (purgeById s id m).1.byId = s.byId ∧
    (purgeById s id m).1.noCache = s.noCache ∧
    (purgeById s id m).1.instances = s.instances ∧
    (purgeById s id m).2 = [] := by
  unfold purgeById
  cases h : lookupKey s.byId id with
  | none => simp
  | some data =>
    by_cases hm : data.modified = m
    · simp [hm]
    · simpa [hm] using foldPaths_proj data.paths (s, [])

/-! Concrete states and oracles used by counterexamples and witnesses. -/

/-- A state with one cached path and zero peers. -/
def stOne : ServerState := ⟨[("/p", "x")], [], [], []⟩

/-- A network oracle in which every peer answers 200. -/
def netOk : String → PeerResult := fun _ => PeerResult.status 200

/-- A state with a record for `id` at `/a/b/c`, a falsy cache entry at `/a`,
truthy entries at `/a/b` and `/a/b/c`, and one peer. -/
def stRec : ServerState :=
  ⟨[("/a", ""), ("/a/b", "x"), ("/a/b/c", "y")],
   [("id", ⟨"m1", ["/a/b/c"]⟩)], [], ["10.0.0.1"]⟩

/-- A state with a record for `a` and no cache entries. -/
def stIdem : ServerState := ⟨[], [("a", ⟨"m1", ["/p"]⟩)], [], []⟩

/-- C1 counterexample: with `recursive` set and zero peers, `purgeCache`
reports success but leaves the local Cache Store entry for the path in
place, refuting the claim that the local entry is deleted regardless of
the flags. -/
theorem recursive_purge_keeps_local_entry_cex :
    stOne.instances = [] ∧
    (purgeCache stOne "/p" false true netOk).2.2 = Except.ok () ∧
    lookupKey (purgeCache stOne "/p" false true netOk).1.cache "/p" = some "x" :=
  ⟨rfl, rfl, rfl⟩

/-- C1 (amended): a non-recursive purge always deletes the local Cache Store
entry for the path, regardless of `preventCache`; a recursive purge leaves
the local state entirely untouched, and with zero peers it still reports
success. -/
theorem local_purge_delete_amended (s : ServerState) (path : String)
    (pc : Bool) (net : String → PeerResult) :
    lookupKey (purgeCache s path pc false net).1.cache path = none ∧
    (purgeCache s path pc true net).1 = s ∧
    (s.instances = [] → (purgeCache s path pc true net).2.2 = Except.ok ()) := by
  refine ⟨?_, rfl, ?_⟩
  · simp [purgeCache, lookupKey_eraseKey]
  · intro h
    simp [purgeCache, h, firstError]

/-- C1 witness: the amended theorem evaluated at a concrete one-entry state
with zero peers. -/
theorem local_purge_delete_amended_witness :
    lookupKey (purgeCache stOne "/p" false false netOk).1.cache "/p" = none ∧
    (purgeCache stOne "/p" false true netOk).2.2 = Except.ok () := by
  have h := local_purge_delete_amended stOne "/p" false netOk
  exact ⟨h.1, h.2.2 rfl⟩

/-- C2 counterexample: after `purgeById` with a strictly different modified
marker, the stored record still carries the old `modifiedAt` and the old
path memberships, refuting the claim that the record is replaced. -/
theorem purgeById_keeps_old_record_cex :
    lookupKey (purgeById stRec "id" "m2").1.byId "id" =
      some ⟨"m1", ["/a/b/c"]⟩ ∧ ("m1" : String) ≠ "m2" := by
  exact ⟨by decide, by decide⟩

/-- C2 (amended): `purgeById` never modifies the Content Index: the record
for every id keeps its old `modifiedAt` and its accumulated path
memberships; only Cache Store entries are removed. -/
theorem purgeById_preserves_content_index (s : ServerState) (id m : String) :
    (purgeById s id m).1.byId = s.byId :=
  (purgeById_proj s id m).1

/-- C3: `purgeById` called twice in a row with the same arguments changes the
state only the first time (the second call leaves the entire state
unchanged), and it is a no-op when no record exists for the id or when the
new modified marker equals the stored one. -/
theorem purgeById_idempotent (s : ServerState) (id m : String) :
    (purgeById (purgeById s id m).1 id m).1 = (purgeById s id m).1 ∧
    (lookupKey s.byId id = none → purgeById s id m = (s, [])) ∧
    (∀ data, lookupKey s.byId id = some data → data.modified = m →
      purgeById s id m = (s, [])) := by
  refine ⟨?_, ?_, ?_⟩
  · cases h : lookupKey s.byId id with
    | none =>
      have e1 : purgeById s id m = (s, []) := by
        unfold purgeById; rw [h]
      rw [e1]
      show (purgeById s id m).1 = s
      rw [e1]
    | some data =>
      by_cases hm : data.modified = m
      · have e1 : purgeById s id m = (s, []) := by
          unfold purgeById; rw [h]; simp [hm]
        rw [e1]
        show (purgeById s id m).1 = s
        rw [e1]
      · have key : ∀ t : ServerState, lookupKey t.byId id = some data →
            purgeById t id m = data.paths.foldl purgePathSegs (t, []) := by
          intro t ht
          unfold purgeById
          rw [ht]
          simp [hm]
        have e1 := key s h
        have h2 : lookupKey (purgeById s id m).1.byId id = some data := by
          rw [(purgeById_proj s id m).1]; exact h
        have hfalsy : ∀ p ∈ data.paths, ∀ u ∈ segments p,
            truthy (lookupKey
              (((purgeById s id m).1, ([] : List OutRequest))).1.cache u) = false := by
          intro p hp u hu
          show truthy (lookupKey (purgeById s id m).1.cache u) = false
          rw [e1]
          exact foldPaths_truthy_self data.paths (s, []) p u hp hu
        rw [key (purgeById s id m).1 h2, foldPaths_of_falsy data.paths _ hfalsy]
  · intro h
    unfold purgeById; rw [h]
  · intro data h hm
    unfold purgeById; rw [h]; simp [hm]

/-- C3 witness: the two no-op branches of the idempotence theorem evaluated
at concrete states. -/
theorem purgeById_idempotent_witness :
    purgeById (⟨[], [], [], []⟩ : ServerState) "x" "m" = (⟨[], [], [], []⟩, []) ∧
    purgeById stIdem "a" "m1" = (stIdem, []) := by
  refine ⟨(purgeById_idempotent ⟨[], [], [], []⟩ "x" "m").2.1 rfl, ?_⟩
  exact (purgeById_idempotent stIdem "a" "m1").2.2 ⟨"m1", ["/p"]⟩ (by decide) rfl

/-- C4 counterexample: a prefix whose cache entry holds a falsy (empty)
payload is skipped by the ancestor purge even though the entry exists,
refuting the claim that every ancestor prefix that currently has a cache
entry is removed. -/
theorem ancestor_purge_skips_falsy_entry_cex :
    lookupKey stRec.byId "id" = some ⟨"m1", ["/a/b/c"]⟩ ∧
    (lookupKey stRec.cache "/a").isSome = true ∧
    (lookupKey stRec.cache "/a/b").isSome = true ∧
    (lookupKey stRec.cache "/a/b/c").isSome = true ∧
    lookupKey (purgeById stRec "id" "m2").1.cache "/a" = some "" :=
  ⟨by decide, by decide, by decide, by decide, by decide⟩

/-- C4 (amended): for an id whose record contains `/a/b/c`, purging with a
new modified marker removes the cache entry at every cumulative ancestor
prefix whose current entry is truthy (non-empty payload); prefixes with no
entry or with a falsy payload are skipped, and the ancestor purge is
local-only: no request is sent to any peer even when peers exist. -/
theorem ancestor_purge_amended (s : ServerState) (id m : String)
    (data : ContentRecord) (h1 : lookupKey s.byId id = some data)
    (h2 : data.modified ≠ m) (h3 : "/a/b/c" ∈ data.paths) :
    (∀ u ∈ segments "/a/b/c", truthy (lookupKey s.cache u) = true →
      lookupKey (purgeById s id m).1.cache u = none) ∧
    (purgeById s id m).2 = [] := by
  have e1 : purgeById s id m = data.paths.foldl purgePathSegs (s, []) := by
    unfold purgeById; rw [h1]; simp [h2]
  constructor
  · intro u hu htr
    have hfalse : truthy (lookupKey (purgeById s id m).1.cache u) = false := by
      rw [e1]
      exact foldPaths_truthy_self data.paths (s, []) "/a/b/c" u h3 hu
    have hor : lookupKey (purgeById s id m).1.cache u = lookupKey s.cache u ∨
        lookupKey (purgeById s id m).1.cache u = none := by
      rw [e1]
      exact foldPaths_lookup data.paths (s, []) u
    rcases hor with hl | hl
    · rw [hl, htr] at hfalse
      simp at hfalse
    · exact hl
  · exact (purgeById_proj s id m).2.2.2

/-- A state with truthy cache entries at `/a`, `/a/b` and `/a/b/c`, a record
for `id` at `/a/b/c`, and one peer. -/
def stTruthy : ServerState :=
  ⟨[("/a", "xa"), ("/a/b", "xb"), ("/a/b/c", "xc")],
   [("id", ⟨"m1", ["/a/b/c"]⟩)], [], ["10.0.0.1"]⟩

/-- C4 witness: the amended theorem at a state where all three ancestor
entries are truthy: every one of them is removed and no peer request is
sent even though a peer exists. -/
theorem ancestor_purge_amended_witness :
    lookupKey (purgeById stTruthy "id" "m2").1.cache "/a" = none ∧
    lookupKey (purgeById stTruthy "id" "m2").1.cache "/a/b" = none ∧
    lookupKey (purgeById stTruthy "id" "m2").1.cache "/a/b/c" = none ∧
    (purgeById stTruthy "id" "m2").2 = [] := by
  have h := ancestor_purge_amended stTruthy "id" "m2" ⟨"m1", ["/a/b/c"]⟩
    (by decide) (by decide) (by decide)
  exact ⟨h.1 "/a" (by decide) (by decide), h.1 "/a/b" (by decide) (by decide),
    h.1 "/a/b/c" (by decide) (by decide), h.2⟩

/-- C5: `add` is a no-op when the modified marker is falsy or the path is
suppressed (the whole state, hence the prior cached value or miss for the
path and the Content Index, is unchanged); otherwise an immediate lookup of
the path returns exactly the payload given and the path is unioned into the
record for the id. -/
theorem add_spec (s : ServerState) (id modified path html : String) :
    (modified = "" → add s id modified path html = s) ∧
    (s.noCache.contains path = true → add s id modified path html = s) ∧
    (modified ≠ "" → s.noCache.contains path = false →
      lookupKey (add s id modified path html).cache path = some html ∧
      ∃ data, lookupKey (add s id modified path html).byId id = some data ∧
        path ∈ data.paths) := by
  refine ⟨?_, ?_, ?_⟩
  · intro h
    unfold add; rw [if_pos h]
  · intro h
    unfold add
    by_cases hm : modified = ""
    · rw [if_pos hm]
    · rw [if_neg hm, if_pos h]
  · intro hm hnc
    unfold add
    rw [if_neg hm, if_neg (by simpa using hnc)]
    refine ⟨lookupKey_setKey_self _ _ _, ?_⟩
    exact ⟨_, lookupKey_setKey_self _ _ _, mem_addToSet _ path⟩

/-- C5 witness: the three branches of the add specification evaluated at
concrete states. -/
theorem add_spec_witness :
    add (⟨[], [], [], []⟩ : ServerState) "id" "" "/p" "h" = ⟨[], [], [], []⟩ ∧
    add (⟨[], [], ["/p"], []⟩ : ServerState) "id" "m" "/p" "h" = ⟨[], [], ["/p"], []⟩ ∧
    lookupKey (add (⟨[], [], [], []⟩ : ServerState) "id" "m" "/p" "h").cache "/p" =
      some "h" := by
  refine ⟨(add_spec ⟨[], [], [], []⟩ "id" "" "/p" "h").1 rfl,
    (add_spec ⟨[], [], ["/p"], []⟩ "id" "m" "/p" "h").2.1 (by decide), ?_⟩
  exact ((add_spec ⟨[], [], [], []⟩ "id" "m" "/p" "h").2.2 (by decide) (by decide)).1

/-- Success of `async.each` aggregation is success of every element. -/
theorem firstError_ok_iff (l : List (Except String Unit)) :
    firstError l = Except.ok () ↔ ∀ e ∈ l, e = Except.ok () := by
  induction l with
  | nil => simp [firstError]
  | cons hd tl ih =>
    cases hd with
    | ok u =>
      cases u
      simp [firstError, ih]
    | error e => simp [firstError]

/-- Success of one peer call is exactly a 200 answer from that peer. -/
theorem peerCall_ok_iff (net : String → PeerResult) (inst path : String) :
    peerCall net inst path = Except.ok () ↔ net inst = PeerResult.status 200 := by
  unfold peerCall
  cases h : net inst with
  | transportError e => simp
  | status code =>
    by_cases hc : code = 200
    · simp [hc]
    · simp [hc]

/-- C6: a recursive purge fan-out succeeds exactly when every peer call
succeeds: any peer transport error or non-200 status makes the overall
result a failure surfaced to the caller, even if every other peer answered
200. -/
theorem fanout_first_failure_wins (s : ServerState) (path : String)
    (pc : Bool) (net : String → PeerResult) :
    (purgeCache s path pc true net).2.2 = Except.ok () ↔
      ∀ inst ∈ s.instances, net inst = PeerResult.status 200 := by
  show firstError (s.instances.map fun inst => peerCall net inst path) =
      Except.ok () ↔ _
  rw [firstError_ok_iff]
  constructor
  · intro h inst hi
    exact (peerCall_ok_iff net inst path).mp (h _ (List.mem_map_of_mem _ hi))
  · intro h e he
    obtain ⟨inst, hi, rfl⟩ := List.mem_map.mp he
    exact (peerCall_ok_iff net inst path).mpr (h inst hi)

/-- A network oracle in which peer `10.0.0.2` answers 503 and every other
peer answers 200. -/
def net503 : String → PeerResult :=
  fun i => if i = "10.0.0.2" then PeerResult.status 503 else PeerResult.status 200

/-- A state with three peers. -/
def stThree : ServerState := ⟨[], [], [], ["10.0.0.1", "10.0.0.2", "10.0.0.3"]⟩

/-- C6 witness: with three peers of which one answers 503, the recursive
purge does not report success even though two of three peers succeeded. -/
theorem fanout_first_failure_wins_witness :
    ¬ (purgeCache stThree "/p" false true net503).2.2 = Except.ok () := by
  intro h
  have h2 := (fanout_first_failure_wins stThree "/p" false net503).mp h
    "10.0.0.2" (by decide)
  exact absurd h2 (by decide)

/-- C7 counterexample: when `preventCache` and `recursive` are both set,
`purgeCache` returns right after the fan-out without arming the suppression
map for the path, refuting the claim that suppression is armed independent
of recursion. -/
theorem recursive_edit_no_local_suppression_cex :
    ((purgeCache stOne "/p" true true netOk).1.noCache.contains "/p") = false := by
  decide

/-- C7 (amended): with `preventCache` set and `recursive` not set, the
suppression map is (re)armed for the path, so after the call the path is
locally suppressed; when `recursive` is also set, the call returns after
the fan-out and local state, including the suppression map, is unchanged. -/
theorem suppression_amended (s : ServerState) (path : String)
    (net : String → PeerResult) :
    ((purgeCache s path true false net).1.noCache.contains path = true) ∧
    ((purgeCache s path true true net).1 = s) := by
  constructor
  · show (armNoCache s.noCache path).contains path = true
    exact contains_armNoCache s.noCache path
  · rfl

/-- Requests emitted by the middleware on the purge path are exactly the
requests of the underlying `purgeCache` call. -/
theorem middleware_fanout_requests (s : ServerState) (req : Req)
    (net : String → PeerResult) (kt : Option String) (kr : KubeResult)
    (h : (req.purge || req.edit) = true) :
    (middleware s req net kt kr).2.1 =
      (purgeCache s req.path req.edit req.recurse net).2.1 := by
  unfold middleware
  rw [if_pos h]
  split <;> rfl

/-- A state with one cached path and one peer. -/
def stPeer : ServerState := ⟨[("/p", "x")], [], [], ["10.0.0.1"]⟩

/-- C8 counterexample: a request whose query carries a truthy `edit` but no
`recurse` triggers a purely local purge: no purge request is sent to the
peer in the directory snapshot, refuting the claim that a truthy `edit`
implies recursion at the boundary. -/
theorem edit_without_recurse_no_fanout_cex :
    stPeer.instances = ["10.0.0.1"] ∧
    (middleware stPeer ⟨"/p", false, true, false⟩ netOk none
      (KubeResult.response 200 [])).2.1 = [] :=
  ⟨rfl, rfl⟩

/-- C8 (amended): the middleware fans out exactly when the `recurse`
parameter is truthy: with `edit` truthy and `recurse` absent the purge is
purely local (suppression armed, local entry deleted, no peer requests);
with `recurse` truthy one purge request per peer in the current directory
snapshot is issued, carrying `edit=1` exactly when `edit` is truthy. -/
theorem boundary_recursion_amended (s : ServerState) (p : String)
    (net : String → PeerResult) (kt : Option String) (kr : KubeResult) :
    ((middleware s ⟨p, false, true, false⟩ net kt kr).2.1 = []) ∧
    ((middleware s ⟨p, false, true, false⟩ net kt kr).1.noCache.contains p = true) ∧
    (lookupKey (middleware s ⟨p, false, true, false⟩ net kt kr).1.cache p = none) ∧
    ((middleware s ⟨p, false, true, true⟩ net kt kr).2.1 =
      s.instances.map (fun inst => ⟨inst, p, true⟩)) ∧
    ((middleware s ⟨p, true, false, true⟩ net kt kr).2.1 =
      s.instances.map (fun inst => ⟨inst, p, false⟩)) := by
  refine ⟨rfl, ?_, ?_, ?_, ?_⟩
  · show (armNoCache s.noCache p).contains p = true
    exact contains_armNoCache s.noCache p
  · show lookupKey (eraseKey s.cache p) p = none
    simp [lookupKey_eraseKey]
  · rw [middleware_fanout_requests s ⟨p, false, true, true⟩ net kt kr rfl]
    rfl
  · rw [middleware_fanout_requests s ⟨p, true, false, true⟩ net kt kr rfl]
    rfl

/-- C9: a Peer Directory refresh replaces the address list wholesale with
the returned pod IPs on success, and on a transport error or a non-200
status leaves the whole state, in particular the previous address list,
intact. -/
theorem updateInstances_replace_or_keep (s : ServerState) (resp : KubeResult) :
    (∀ ips, (updateInstances s resp).2 = Except.ok ips →
      (updateInstances s resp).1 = { s with instances := ips }) ∧
    (∀ e, (updateInstances s resp).2 = Except.error e →
      (updateInstances s resp).1 = s) := by
  constructor
  · intro ips h
    cases resp with
    | transportError msg => simp [updateInstances] at h
    | response code ips2 =>
      by_cases hc : code = 200
      · have h2 : ips2 = ips := by simpa [updateInstances, hc] using h
        subst h2
        simp [updateInstances, hc]
      · simp [updateInstances, hc] at h
  · intro e h
    cases resp with
    | transportError msg => rfl
    | response code ips2 =>
      by_cases hc : code = 200
      · simp [updateInstances, hc] at h
      · simp [updateInstances, hc]

/-- A state with one stale peer address. -/
def stU : ServerState := ⟨[], [], [], ["10.0.0.9"]⟩

/-- C9 witness: a successful refresh replaces the stale address list; a
transport error leaves it intact. -/
theorem updateInstances_replace_or_keep_witness :
    (updateInstances stU (KubeResult.response 200 ["10.0.0.5"])).1 =
      { stU with instances := ["10.0.0.5"] } ∧
    (updateInstances stU (KubeResult.transportError "boom")).1 = stU := by
  refine ⟨(updateInstances_replace_or_keep stU
    (KubeResult.response 200 ["10.0.0.5"])).1 ["10.0.0.5"] (by simp [updateInstances]), ?_⟩
  exact (updateInstances_replace_or_keep stU
    (KubeResult.transportError "boom")).2 "boom" rfl

/-- C10: an `add` with a truthy modified marker and a non-suppressed path
but a falsy (empty) payload stores the payload in the Cache Store, yet the
middleware never serves it as a cache hit: a lookup of that exact path
falls through to the render pipeline exactly as if no entry existed. -/
theorem falsy_payload_not_served (s : ServerState) (id modified p : String)
    (net : String → PeerResult) (kt : Option String) (kr : KubeResult)
    (hm : modified ≠ "") (hs : s.noCache.contains p = false) :
    lookupKey (add s id modified p "").cache p = some "" ∧
    middleware (add s id modified p "") ⟨p, false, false, false⟩ net kt kr =
      (add s id modified p "", [], MwResult.next) := by
  have h1 : lookupKey (add s id modified p "").cache p = some "" := by
    unfold add
    rw [if_neg hm, if_neg (by simpa using hs)]
    exact lookupKey_setKey_self _ _ _
  refine ⟨h1, ?_⟩
  unfold middleware
  simp [h1]

/-- C10 witness: an empty payload added at `/p` is stored, but a later
lookup of `/p` falls through to `next`. -/
theorem falsy_payload_not_served_witness :
    lookupKey (add (⟨[], [], [], []⟩ : ServerState) "id" "m" "/p" "").cache "/p" =
      some "" ∧
    middleware (add (⟨[], [], [], []⟩ : ServerState) "id" "m" "/p" "")
      ⟨"/p", false, false, false⟩ netOk none (KubeResult.response 200 []) =
      (add ⟨[], [], [], []⟩ "id" "m" "/p" "", [], MwResult.next) :=
  falsy_payload_not_served ⟨[], [], [], []⟩ "id" "m" "/p" netOk none
    (KubeResult.response 200 []) (by decide) (by decide)

end LibraryCache
